import Mathlib

/-!
Verification of the worship-song recommender core (src/Worship/app.py).

The development shallowly embeds the three core functions of the source —
`extract_speed_filter`, `load_resources` and `recommend` — and proves the
spec's claims about them.  The two pretrained models are opaque black boxes
in the source (a sentence embedder whose normalized vectors are compared by
inner product, and a cross-encoder producing one relevance score per
(query, text) pair); both are deterministic for a fixed model version, so
they are modelled as explicit function parameters `sim` and `rr` from
strings to integer scores.  Fallible steps (places where the Python code
raises) are modelled with `Option`.
-/

/-! ## Word-boundary regex search

`extract_speed_filter` uses `re.search(r"\b(w1|w2|...)\b", q)` on the
lowercased query.  A word character for `\b` is a letter, digit or
underscore (the source's keywords and catalog are ASCII, so the ASCII
reading of `\w` is faithful here).  The boolean searcher below scans every
start position, checking the boundary before, one alternative word, and the
boundary after — equivalent, as a boolean, to the regex search.
-/

def isWordChar (c : Char) : Bool := c.isAlphanum || c == '_'

/-- Boundary test against the character adjacent to a match (`none` at the
ends of the string, where `\b` always holds). -/
def boundOk : Option Char → Bool
  | none => true
  | some c => !isWordChar c

/-- Does `cs` start with the word `w`? -/
def charsStartWith : List Char → List Char → Bool
  | [], _ => true
  | _ :: _, [] => false
  | a :: as, b :: bs => a == b && charsStartWith as bs

/-- Does `cs` start with the word `w`, followed by a word boundary? -/
def atWordStart (w cs : List Char) : Bool :=
  charsStartWith w cs && boundOk (cs.drop w.length).head?

/-- Scan `cs` for an occurrence of `w` delimited by word boundaries; `prev`
is the character just before `cs` (`none` at the start of the string). -/
def searchWordFrom (w : List Char) (prev : Option Char) : List Char → Bool
  | [] => boundOk prev && atWordStart w []
  | c :: rest => (boundOk prev && atWordStart w (c :: rest)) || searchWordFrom w (some c) rest

def searchWordStr (w s : String) : Bool := searchWordFrom w.data none s.data

/-- `re.search(r"\b(...)\b", s)` as a boolean: some alternative occurs. -/
def regexSearchAny (ws : List String) (s : String) : Bool :=
  ws.any fun w => searchWordStr w s

/-! Specification-level occurrence predicate: `w` occurs in `cs` means `cs`
splits as `pre ++ w ++ post` with a non-word character (or the string end)
on each side.  `prev` again stands for the character before `cs`. -/

def occursFrom (w : List Char) (prev : Option Char) (cs : List Char) : Prop :=
  ∃ pre post : List Char, cs = pre ++ w ++ post ∧
    boundOk (pre.getLast?.or prev) = true ∧ boundOk post.head? = true

def occursAsWord (w s : String) : Prop := occursFrom w.data none s.data

def occursAnyWord (ws : List String) (s : String) : Prop :=
  ∃ w ∈ ws, occursAsWord w s

theorem charsStartWith_iff (w : List Char) :
    ∀ cs, charsStartWith w cs = true ↔ ∃ t, cs = w ++ t := by
  induction w with
  | nil =>
    intro cs
    simp [charsStartWith]
  | cons a as ih =>
    intro cs
    cases cs with
    | nil =>
      simp [charsStartWith]
    | cons b bs =>
      simp only [charsStartWith, Bool.and_eq_true, beq_iff_eq, ih bs,
        List.cons_append, List.cons.injEq]
      constructor
      · rintro ⟨hab, t, ht⟩
        exact ⟨t, hab.symm, ht⟩
      · rintro ⟨t, hba, ht⟩
        exact ⟨hba.symm, t, ht⟩

theorem atWordStart_iff (w cs : List Char) :
    atWordStart w cs = true ↔ ∃ post, cs = w ++ post ∧ boundOk post.head? = true := by
  constructor
  · intro h
    rcases Bool.and_eq_true .. |>.mp h with ⟨h1, h2⟩
    rcases (charsStartWith_iff w cs).mp h1 with ⟨post, hpost⟩
    subst hpost
    rw [List.drop_left] at h2
    exact ⟨post, rfl, h2⟩
  · rintro ⟨post, rfl, hb⟩
    have h1 : charsStartWith w (w ++ post) = true :=
      (charsStartWith_iff w (w ++ post)).mpr ⟨post, rfl⟩
    simp [atWordStart, h1, List.drop_left, hb]

theorem getLast?_cons_or (c : Char) (l : List Char) (p : Option Char) :
    ((c :: l).getLast?).or p = (l.getLast?).or (some c) := by
  induction l generalizing c p with
  | nil => simp
  | cons x xs ih =>
    rw [List.getLast?_cons_cons]
    rw [ih x p, ih x (some c)]

theorem searchWordFrom_iff (w : List Char) :
    ∀ (cs : List Char) (prev : Option Char),
      searchWordFrom w prev cs = true ↔ occursFrom w prev cs := by
  intro cs
  induction cs with
  | nil =>
    intro prev
    constructor
    · intro h
      rcases Bool.and_eq_true .. |>.mp h with ⟨h1, h2⟩
      rcases (atWordStart_iff w []).mp h2 with ⟨post, hsplit, hb⟩
      rcases List.append_eq_nil.mp hsplit.symm with ⟨hw, hpost⟩
      subst hw; subst hpost
      exact ⟨[], [], by simp, by simpa using h1, rfl⟩
    · rintro ⟨pre, post, hsplit, hpre, hpost⟩
      rcases List.append_eq_nil.mp hsplit.symm with ⟨h1, hpost0⟩
      rcases List.append_eq_nil.mp h1 with ⟨hpre0, hw⟩
      subst hpre0; subst hw; subst hpost0
      have hprev : boundOk prev = true := by simpa using hpre
      simp [searchWordFrom, atWordStart, charsStartWith, hprev,
        show boundOk none = true from rfl]
  | cons c rest ih =>
    intro prev
    simp only [searchWordFrom, Bool.or_eq_true, Bool.and_eq_true,
      atWordStart_iff, ih (some c)]
    constructor
    · rintro (⟨hprev, post, hsplit, hb⟩ | ⟨pre, post, hsplit, hpre, hb⟩)
      · exact ⟨[], post, by simpa using hsplit, by simpa using hprev, hb⟩
      · refine ⟨c :: pre, post, by simp [hsplit], ?_, hb⟩
        rw [getLast?_cons_or]
        exact hpre
    · rintro ⟨pre, post, hsplit, hpre, hb⟩
      cases pre with
      | nil =>
        left
        refine ⟨by simpa using hpre, post, by simpa using hsplit, hb⟩
      | cons c' pre' =>
        right
        simp only [List.cons_append, List.cons.injEq] at hsplit
        rcases hsplit with ⟨hc, hrest⟩
        subst hc
        refine ⟨pre', post, hrest, ?_, hb⟩
        rw [getLast?_cons_or] at hpre
        exact hpre

theorem searchWordStr_iff (w s : String) :
    searchWordStr w s = true ↔ occursAsWord w s :=
  searchWordFrom_iff w.data s.data none

theorem regexSearchAny_iff (ws : List String) (s : String) :
    regexSearchAny ws s = true ↔ occursAnyWord ws s := by
  simp only [regexSearchAny, List.any_eq_true, searchWordStr_iff, occursAnyWord]

theorem regexSearchAny_eq_false (ws : List String) (s : String)
    (h : ¬ occursAnyWord ws s) : regexSearchAny ws s = false := by
  cases hb : regexSearchAny ws s with
  | false => rfl
  | true => exact absurd ((regexSearchAny_iff ws s).mp hb) h

/-! ## Strings: lowercasing and lexicographic order

Python's `str.lower()` and string comparison work per character (by code
point).  The structural definitions below mirror that; they avoid the
iterator-based core `String` functions so that every concrete instance in
this file evaluates inside the kernel.
-/

/-- `str.lower()` — per-character ASCII lowering (the catalog and the
keyword patterns are ASCII). -/
def strToLower (s : String) : String := ⟨s.data.map Char.toLower⟩

/-- Strict lexicographic comparison of character lists by code point,
exactly Python's `<` on strings. -/
def charListLt : List Char → List Char → Bool
  | [], [] => false
  | [], _ :: _ => true
  | _ :: _, [] => false
  | a :: as, b :: bs => a < b || (a == b && charListLt as bs)

def strLt (a b : String) : Prop := charListLt a.data b.data = true

/-- `a ≤ b` on strings, as the negation of `b < a` (the orders are total). -/
def strLe (a b : String) : Prop := ¬ strLt b a

instance (a b : String) : Decidable (strLt a b) := by unfold strLt; infer_instance

instance (a b : String) : Decidable (strLe a b) := by unfold strLe; infer_instance

theorem charListLt_trans {l m n : List Char} (h1 : charListLt l m = true)
    (h2 : charListLt m n = true) : charListLt l n = true := by
  induction l generalizing m n with
  | nil =>
    cases m with
    | nil => exact absurd h1 (by simp [charListLt])
    | cons b bs =>
      cases n with
      | nil => exact absurd h2 (by simp [charListLt])
      | cons c cs => simp [charListLt]
  | cons a as ih =>
    cases m with
    | nil => exact absurd h1 (by simp [charListLt])
    | cons b bs =>
      cases n with
      | nil => exact absurd h2 (by simp [charListLt])
      | cons c cs =>
        simp only [charListLt, Bool.or_eq_true, Bool.and_eq_true, beq_iff_eq,
          decide_eq_true_iff] at h1 h2 ⊢
        rcases h1 with hab | ⟨hab, has⟩ <;> rcases h2 with hbc | ⟨hbc, hbs⟩
        · exact Or.inl (lt_trans hab hbc)
        · exact Or.inl (hbc ▸ hab)
        · exact Or.inl (hab ▸ hbc)
        · exact Or.inr ⟨hab.trans hbc, ih has hbs⟩

theorem charListLt_irrefl (l : List Char) : charListLt l l = false := by
  induction l with
  | nil => rfl
  | cons a as ih => simp [charListLt, ih, lt_irrefl]

theorem charListLt_asymm {l m : List Char} (h : charListLt l m = true) :
    charListLt m l = false := by
  cases hm : charListLt m l with
  | false => rfl
  | true =>
    have := charListLt_trans h hm
    rw [charListLt_irrefl] at this
    exact absurd this (by simp)

theorem charListLt_conn {l m : List Char} (h1 : charListLt l m = false)
    (h2 : charListLt m l = false) : l = m := by
  induction l generalizing m with
  | nil =>
    cases m with
    | nil => rfl
    | cons b bs => exact absurd h1 (by simp [charListLt])
  | cons a as ih =>
    cases m with
    | nil => exact absurd h2 (by simp [charListLt])
    | cons b bs =>
      simp only [charListLt, Bool.or_eq_false_iff, Bool.and_eq_false_iff,
        decide_eq_false_iff_not] at h1 h2
      have hab : a = b := le_antisymm (not_lt.mp h2.1) (not_lt.mp h1.1)
      subst hab
      rcases h1.2 with h | h
      · simp at h
      · rcases h2.2 with h' | h'
        · simp at h'
        · exact congrArg (a :: ·) (ih h h')

theorem strLe_total (a b : String) : strLe a b ∨ strLe b a := by
  unfold strLe strLt
  by_cases h : charListLt b.data a.data = true
  · right
    rw [charListLt_asymm h]
    simp
  · exact Or.inl h

theorem strLe_trans {a b c : String} (h1 : strLe a b) (h2 : strLe b c) : strLe a c := by
  unfold strLe strLt at h1 h2 ⊢
  intro hca
  cases hbc : charListLt b.data c.data with
  | true => exact h1 (charListLt_trans hbc hca)
  | false =>
    have hcb : charListLt c.data b.data = false := by
      cases h : charListLt c.data b.data with
      | false => rfl
      | true => exact absurd h h2
    have hbceq : b.data = c.data := charListLt_conn hbc hcb
    exact h1 (hbceq ▸ hca)

theorem strLe_iff (a b : String) : strLe a b ↔ strLt a b ∨ a = b := by
  constructor
  · intro h
    by_cases hlt : strLt a b
    · exact Or.inl hlt
    · refine Or.inr ?_
      have hlt' : charListLt a.data b.data = false := by
        cases hh : charListLt a.data b.data with
        | false => rfl
        | true => exact absurd hh hlt
      have hle' : charListLt b.data a.data = false := by
        cases hh : charListLt b.data a.data with
        | false => rfl
        | true => exact absurd hh h
      have hd : a.data = b.data := charListLt_conn hlt' hle'
      cases a with
      | mk da =>
        cases b with
        | mk db => exact congrArg String.mk hd
  · rintro (h | rfl)
    · intro h2
      have := charListLt_trans h h2
      rw [charListLt_irrefl] at this
      exact absurd this (by simp)
    · intro h2
      rw [strLt, charListLt_irrefl] at h2
      exact absurd h2 (by simp)

/-! ## Speed filter (src/Worship/app.py, lines 52-60) -/

def slowWords : List String := ["slow", "slower", "slowly"]
def middleWords : List String := ["mid", "middle", "medium", "moderate"]
def fastWords : List String := ["fast", "faster", "quick", "upbeat"]

/-- `extract_speed_filter(query)`: lowercase the query, then test the three
word-boundary alternations in the source's order. -/
def extract_speed_filter (query : String) : Option String :=
  let query_lower := strToLower query
  if regexSearchAny slowWords query_lower then some "slow"
  else if regexSearchAny middleWords query_lower then some "middle"
  else if regexSearchAny fastWords query_lower then some "fast"
  else none

/-! ## Data model

A `Song` is one catalog row (the sheet's columns).  `search_text` is the
derived retrieval column computed in `load_resources`
(`speed + ' ' + themes + ' ' + title + ' ' + artist`), and
`cross_input_text` the reranker candidate text built in `recommend`
(`speed + " " + themes + " " + lyrics`).
-/

structure Song where
  title : String
  artist : String
  themes : String
  speed : String
  lyrics : String
  link : String
  added_by : String
deriving Repr, DecidableEq

def Song.search_text (s : Song) : String :=
  s.speed ++ " " ++ s.themes ++ " " ++ s.title ++ " " ++ s.artist

def Song.cross_input_text (s : Song) : String :=
  s.speed ++ " " ++ s.themes ++ " " ++ s.lyrics

/-- A raw sheet record as returned by `sheet.get_all_records()`.  A record
that is missing its `themes` or `lyrics` value (a blank cell) is carried as
`none` here; gspread hands such cells to the app as the empty string, which
`rawToSong` makes explicit. -/
structure RawRecord where
  title : String
  artist : String
  speed : String
  link : String
  added_by : String
  themes : Option String
  lyrics : Option String
deriving Repr, DecidableEq

/-- A raw record enters the DataFrame with blank `themes`/`lyrics` cells as
the empty string, so the `search_text` concatenation and the reranker input
never fail on such records. -/
def rawToSong (r : RawRecord) : Song :=
  { title := r.title, artist := r.artist, themes := r.themes.getD "",
    speed := r.speed, lyrics := r.lyrics.getD "", link := r.link,
    added_by := r.added_by }

/-- `load_resources` (src/Worship/app.py, lines 29-49): load the records
and attach the derived `search_text` column (here the derived function
`Song.search_text`); the embedder, index and cross-encoder it also loads
are modelled by the `sim`/`rr` parameters of `recommend`.  On an empty
record list, `pd.DataFrame([])` has no columns, so the line
`df['speed'] + ' ' + df['themes'] + ...` raises `KeyError` — modelled as
`none`. -/
def load_resources (records : List RawRecord) : Option (List Song) :=
  if records.isEmpty then none else some (records.map rawToSong)

/-- A song together with its cross-encoder score (`candidates['score']`).
Scores are modelled as integers: the claims under check depend only on
their ordering, not on float representation. -/
structure ScoredSong where
  song : Song
  score : Int
deriving Repr, DecidableEq

/-! ## Vector index (faiss `IndexFlatIP`)

The embedder is deterministic, so the inner product of the normalized query
embedding and the normalized embedding of a candidate's `search_text` is a
function `sim : String → String → Int` of the two texts.  Exact search over
the index ranks the stored positions by descending similarity (ties by
position, which also keeps the model deterministic) and returns exactly `k`
labels, padding with the sentinel `-1` when `k` exceeds the number of
stored vectors — faiss does not cap `k`.
-/

/-- Ranking relation for positions `i j` into the similarity list:
higher similarity first, ties by position. -/
def simRel (sims : List Int) (i j : Nat) : Prop :=
  sims.getD j 0 < sims.getD i 0 ∨ (sims.getD i 0 = sims.getD j 0 ∧ i ≤ j)

instance (sims : List Int) : DecidableRel (simRel sims) := fun i j => by
  unfold simRel; infer_instance

instance (sims : List Int) : IsTotal Nat (simRel sims) where
  total i j := by
    unfold simRel
    rcases lt_trichotomy (sims.getD i 0) (sims.getD j 0) with h | h | h
    · exact Or.inr (Or.inl h)
    · rcases Nat.le_total i j with hij | hij
      · exact Or.inl (Or.inr ⟨h, hij⟩)
      · exact Or.inr (Or.inr ⟨h.symm, hij⟩)
    · exact Or.inl (Or.inl h)

instance (sims : List Int) : IsTrans Nat (simRel sims) where
  trans i j k hij hjk := by
    unfold simRel at hij hjk ⊢
    rcases hij with h1 | ⟨e1, l1⟩ <;> rcases hjk with h2 | ⟨e2, l2⟩
    · exact Or.inl (lt_trans h2 h1)
    · exact Or.inl (e2 ▸ h1)
    · exact Or.inl (e1 ▸ h2)
    · exact Or.inr ⟨e1.trans e2, l1.trans l2⟩

/-- The positions `0, …, n-1` ranked by descending similarity. -/
def faissRank (sims : List Int) : List Nat :=
  List.insertionSort (simRel sims) (List.range sims.length)

/-- `index.search(query_emb, k)` label output for one query: the ranked
positions, truncated to `k` and padded with `-1` up to length `k`. -/
def faissSearch (sims : List Int) (k : Nat) : List Int :=
  ((faissRank sims).map Int.ofNat).take k ++ List.replicate (k - sims.length) (-1)

/-! ## pandas positional indexing and deduplication -/

/-- `df.iloc[i]` for an integer position: negative positions count from the
end; out of range raises (`none`). -/
def ilocGet (rows : List Song) (i : Int) : Option Song :=
  if 0 ≤ i then rows[i.toNat]?
  else if (-i).toNat ≤ rows.length then rows[rows.length - (-i).toNat]? else none

/-- `filtered_df.iloc[candidate_idxs[0]]`: gather all rows at the given
positions, failing if any is out of range. -/
def ilocList (rows : List Song) : List Int → Option (List Song)
  | [] => some []
  | i :: is =>
    match ilocGet rows i, ilocList rows is with
    | some s, some ss => some (s :: ss)
    | _, _ => none

/-- `drop_duplicates(subset=['title', 'artist'])` with the default
`keep='first'`: walk the rows in order, keeping a row only if its
(title, artist) pair has not been seen. -/
def dropDupAux (seen : List (String × String)) : List Song → List Song
  | [] => []
  | s :: rest =>
    if (s.title, s.artist) ∈ seen then dropDupAux seen rest
    else s :: dropDupAux ((s.title, s.artist) :: seen) rest

def dropDupTitleArtist (l : List Song) : List Song := dropDupAux [] l

/-! ## Recommendation pipeline (src/Worship/app.py, lines 62-94) -/

/-- The working set: the whole catalog, or the rows whose `speed` equals
the extracted filter (`df[df['speed'].str.lower() == speed_filter]`). -/
def filteredSubset (df : List Song) (query : String) : List Song :=
  match extract_speed_filter query with
  | some f => df.filter fun s => strToLower s.speed == f
  | none => df

/-- `if speed_filter: ... if filtered_df.empty: return pd.DataFrame()` —
the early empty return is taken exactly when a filter is present and it
matches nothing. -/
def earlyEmpty (df : List Song) (query : String) : Bool :=
  (extract_speed_filter query).isSome && (filteredSubset df query).isEmpty

/-- The retrieval stage on the working set: embed the working set's
`search_text`s, build a fresh index over them and search it with
`k = candidate_pool` (uncapped, exactly as in the source).  Encoding an
empty text list yields a 0-row array and `local_embeddings.shape[1]`
raises `IndexError` (`none`); faiss itself rejects `k = 0`. -/
def retrievalFrom (sim : String → String → Int) (filtered_df : List Song)
    (query : String) (candidate_pool : Nat) : Option (List Int) :=
  if filtered_df.isEmpty then none
  else if candidate_pool = 0 then none
  else some (faissSearch (filtered_df.map fun s => sim query s.search_text) candidate_pool)

/-- The positions returned by the per-query index search inside
`recommend` (the array `candidate_idxs[0]`). -/
def retrievalPositions (sim : String → String → Int) (df : List Song)
    (query : String) (candidate_pool : Nat) : Option (List Int) :=
  if earlyEmpty df query then none
  else retrievalFrom sim (filteredSubset df query) query candidate_pool

/-- The candidate list surviving retrieval and deduplication (the
DataFrame `candidates` before scoring).  The early empty return carries an
empty candidate list. -/
def availableCandidates (sim : String → String → Int) (df : List Song)
    (query : String) (candidate_pool : Nat) : Option (List Song) :=
  if earlyEmpty df query then some []
  else
    match retrievalFrom sim (filteredSubset df query) query candidate_pool with
    | none => none
    | some candidate_idxs =>
      match ilocList (filteredSubset df query) candidate_idxs with
      | none => none
      | some raw_candidates => some (dropDupTitleArtist raw_candidates)

/-- Final ordering (`sort_values(by=['score', 'title'],
ascending=[False, True])`): score descending, ties by title ascending.
pandas' multi-key sort is stable, as is insertion sort. -/
def rankRel (a b : ScoredSong) : Prop :=
  b.score < a.score ∨ (a.score = b.score ∧ strLe a.song.title b.song.title)

instance : DecidableRel rankRel := fun a b => by
  unfold rankRel; infer_instance

instance : IsTotal ScoredSong rankRel where
  total a b := by
    unfold rankRel
    rcases lt_trichotomy a.score b.score with h | h | h
    · exact Or.inr (Or.inl h)
    · rcases strLe_total a.song.title b.song.title with hs | hs
      · exact Or.inl (Or.inr ⟨h, hs⟩)
      · exact Or.inr (Or.inr ⟨h.symm, hs⟩)
    · exact Or.inl (Or.inl h)

instance : IsTrans ScoredSong rankRel where
  trans a b c hab hbc := by
    unfold rankRel at hab hbc ⊢
    rcases hab with h1 | ⟨e1, l1⟩ <;> rcases hbc with h2 | ⟨e2, l2⟩
    · exact Or.inl (lt_trans h2 h1)
    · exact Or.inl (e2 ▸ h1)
    · exact Or.inl (e1 ▸ h2)
    · exact Or.inr ⟨e1.trans e2, strLe_trans l1 l2⟩

/-- `recommend(query, top_k=20, candidate_pool=len(df))`
(src/Worship/app.py, lines 62-94).  `sim` is the normalized inner product
of the embedder's vectors for (query, search_text); `rr` the cross-encoder
score for (query, candidate text).  In the source the two defaults are
`top_k = 20` and `candidate_pool = len(df)` (the full catalog size, fixed
at definition time); both are explicit parameters here. -/
def recommend (sim rr : String → String → Int) (df : List Song)
    (query : String) (top_k candidate_pool : Nat) : Option (List ScoredSong) :=
  match availableCandidates sim df query candidate_pool with
  | none => none
  | some candidates =>
    let scored := candidates.map fun s => ScoredSong.mk s (rr query s.cross_input_text)
    some ((List.insertionSort rankRel scored).take top_k)

/-! ## Helper lemmas about the pipeline stages -/

theorem dropDupAux_key_nodup (l : List Song) : ∀ seen : List (String × String),
    ((dropDupAux seen l).map fun s => (s.title, s.artist)).Nodup ∧
    ∀ k ∈ (dropDupAux seen l).map fun s => (s.title, s.artist), k ∉ seen := by
  induction l with
  | nil => intro seen; simp [dropDupAux]
  | cons s rest ih =>
    intro seen
    by_cases h : (s.title, s.artist) ∈ seen
    · simpa [dropDupAux, h] using ih seen
    · rcases ih ((s.title, s.artist) :: seen) with ⟨hnd, hmem⟩
      constructor
      · simp only [dropDupAux, if_neg h, List.map_cons]
        refine List.nodup_cons.mpr ⟨fun hin => ?_, hnd⟩
        exact (hmem _ hin) (List.mem_cons_self _ _)
      · intro k hk
        simp only [dropDupAux, if_neg h, List.map_cons] at hk
        rcases List.mem_cons.mp hk with rfl | hk2
        · exact h
        · exact fun hks => (hmem k hk2) (List.mem_cons_of_mem _ hks)

theorem dropDup_key_nodup (l : List Song) :
    ((dropDupTitleArtist l).map fun s => (s.title, s.artist)).Nodup :=
  (dropDupAux_key_nodup l []).1

theorem faissRank_perm (sims : List Int) :
    (faissRank sims).Perm (List.range sims.length) :=
  List.perm_insertionSort _ _

theorem faissRank_length (sims : List Int) :
    (faissRank sims).length = sims.length := by
  rw [(faissRank_perm sims).length_eq, List.length_range]

theorem mem_faissRank {sims : List Int} {i : Nat} (h : i ∈ faissRank sims) :
    i < sims.length := by
  have := (faissRank_perm sims).mem_iff.mp h
  simpa [List.mem_range] using this

theorem faissSearch_length (sims : List Int) (k : Nat) :
    (faissSearch sims k).length = k := by
  simp only [faissSearch, List.length_append, List.length_take, List.length_map,
    List.length_replicate, faissRank_length]
  omega

theorem mem_faissSearch {sims : List Int} {k : Nat} {p : Int}
    (h : p ∈ faissSearch sims k) :
    (0 ≤ p ∧ p.toNat < sims.length) ∨ p = -1 := by
  rcases List.mem_append.mp h with h | h
  · left
    have h2 : p ∈ (faissRank sims).map Int.ofNat :=
      (List.take_sublist _ _).mem h
    rcases List.mem_map.mp h2 with ⟨i, hi, rfl⟩
    have hlt := mem_faissRank hi
    exact ⟨Int.ofNat_nonneg i, by simpa using hlt⟩
  · exact Or.inr (List.eq_of_mem_replicate h)

theorem mem_faissSearch_of_le {sims : List Int} {k : Nat} {p : Int}
    (hk : k ≤ sims.length) (h : p ∈ faissSearch sims k) :
    0 ≤ p ∧ p.toNat < sims.length := by
  rcases List.mem_append.mp h with h | h
  · have h2 : p ∈ (faissRank sims).map Int.ofNat :=
      (List.take_sublist _ _).mem h
    rcases List.mem_map.mp h2 with ⟨i, hi, rfl⟩
    have hlt := mem_faissRank hi
    exact ⟨Int.ofNat_nonneg i, by simpa using hlt⟩
  · rw [Nat.sub_eq_zero_of_le hk] at h
    simp at h

theorem ilocGet_isSome {rows : List Song} {p : Int} (hne : rows ≠ [])
    (hp : (0 ≤ p ∧ p.toNat < rows.length) ∨ p = -1) :
    (ilocGet rows p).isSome := by
  rcases hp with ⟨h0, hlt⟩ | rfl
  · simp only [ilocGet, if_pos h0]
    rw [List.getElem?_eq_getElem hlt]
    rfl
  · have hlen : 1 ≤ rows.length := by
      cases rows with
      | nil => exact absurd rfl hne
      | cons a l => simp
    have h1 : ¬ (0 : Int) ≤ -1 := by decide
    have h2 : ((-(-1 : Int)).toNat ≤ rows.length) := by simpa using hlen
    simp only [ilocGet, if_neg h1, if_pos h2]
    rw [List.getElem?_eq_getElem (by omega)]
    rfl

theorem ilocList_isSome {rows : List Song} (hne : rows ≠ []) :
    ∀ {ps : List Int}, (∀ p ∈ ps, (0 ≤ p ∧ p.toNat < rows.length) ∨ p = -1) →
      (ilocList rows ps).isSome := by
  intro ps
  induction ps with
  | nil => intro _; simp [ilocList]
  | cons p ps ih =>
    intro h
    have h1 := ilocGet_isSome hne (h p (List.mem_cons_self _ _))
    have h2 := ih fun q hq => h q (List.mem_cons_of_mem _ hq)
    rw [ilocList]
    rcases Option.isSome_iff_exists.mp h1 with ⟨s, hs⟩
    rcases Option.isSome_iff_exists.mp h2 with ⟨ss, hss⟩
    rw [hs, hss]
    rfl

theorem earlyEmpty_eq_false_of_ne {df : List Song} {q : String}
    (hne : filteredSubset df q ≠ []) : earlyEmpty df q = false := by
  unfold earlyEmpty
  have h : (filteredSubset df q).isEmpty = false := by
    cases hfs : filteredSubset df q with
    | nil => exact absurd hfs hne
    | cons a l => simp
  simp [h]

theorem filteredSubset_ne_of_not_early {df : List Song} {q : String}
    (hdf : df ≠ []) (h : earlyEmpty df q = false) : filteredSubset df q ≠ [] := by
  unfold earlyEmpty at h
  cases hf : extract_speed_filter q with
  | none => simpa [filteredSubset, hf] using hdf
  | some f =>
    rw [hf] at h
    simp only [Option.isSome_some, Bool.true_and] at h
    intro hc
    rw [hc] at h
    simp at h

theorem availableCandidates_isSome (sim : String → String → Int) (df : List Song)
    (q : String) (pool : Nat) (hdf : df ≠ []) (hpool : 1 ≤ pool) :
    (availableCandidates sim df q pool).isSome := by
  unfold availableCandidates
  cases he : earlyEmpty df q with
  | true => simp
  | false =>
    simp only [Bool.false_eq_true, if_false]
    have hne := filteredSubset_ne_of_not_early hdf he
    have hisE : (filteredSubset df q).isEmpty = false := by
      cases hfs : filteredSubset df q with
      | nil => exact absurd hfs hne
      | cons a l => simp
    rw [retrievalFrom, hisE]
    have hk0 : ¬ pool = 0 := by omega
    simp only [Bool.false_eq_true, if_false, if_neg hk0]
    set sims := (filteredSubset df q).map fun s => sim q s.search_text with hsims
    have hlen : sims.length = (filteredSubset df q).length := List.length_map _ _
    have hmem : ∀ p ∈ faissSearch sims pool,
        (0 ≤ p ∧ p.toNat < (filteredSubset df q).length) ∨ p = -1 := by
      intro p hp
      rcases mem_faissSearch hp with ⟨h0, hlt⟩ | hp1
      · exact Or.inl ⟨h0, hlen ▸ hlt⟩
      · exact Or.inr hp1
    rcases Option.isSome_iff_exists.mp (ilocList_isSome hne hmem) with ⟨raw, hraw⟩
    rw [hraw]
    simp

theorem recommend_isSome (sim rr : String → String → Int) (df : List Song)
    (q : String) (top_k pool : Nat) (hdf : df ≠ []) (hpool : 1 ≤ pool) :
    (recommend sim rr df q top_k pool).isSome := by
  rw [recommend]
  rcases Option.isSome_iff_exists.mp
    (availableCandidates_isSome sim df q pool hdf hpool) with ⟨cs, hcs⟩
  rw [hcs]
  simp

theorem availableCandidates_key_nodup {sim : String → String → Int}
    {df : List Song} {q : String} {pool : Nat} {cs : List Song}
    (h : availableCandidates sim df q pool = some cs) :
    (cs.map fun s => (s.title, s.artist)).Nodup := by
  unfold availableCandidates at h
  by_cases he : earlyEmpty df q
  · rw [if_pos he] at h
    cases h
    simp
  · rw [if_neg he] at h
    cases hr : retrievalFrom sim (filteredSubset df q) q pool with
    | none => rw [hr] at h; cases h
    | some idxs =>
      rw [hr] at h
      dsimp only at h
      cases hi : ilocList (filteredSubset df q) idxs with
      | none => rw [hi] at h; cases h
      | some raw =>
        rw [hi] at h
        dsimp only at h
        cases h
        exact dropDup_key_nodup raw

/-! ## Claims -/

/-- Sample catalog for C1: two slow songs and one fast song. -/
def c1Catalog : List Song :=
  [⟨"Abide", "A1", "grace", "slow", "la", "u", "p"⟩,
   ⟨"Be Still", "A2", "peace", "slow", "lb", "u", "p"⟩,
   ⟨"Celebrate", "A3", "joy", "fast", "lc", "u", "p"⟩]

/-- C1, counterexample to the claim as stated: with the source's own
default `candidate_pool = len(df) = 3` and a query whose speed filter
leaves 2 songs, the retrieval call is made with `k = 3`, not
`min(3, 2) = 2`: it yields 3 candidate positions, among them the faiss
padding sentinel `-1`, which is not a valid (non-negative) index into the
filtered subset. -/
theorem c1_counterexample :
    retrievalPositions (fun _ _ => (0 : Int)) c1Catalog "slow songs please" 3
        = some [0, 1, -1] ∧
    (filteredSubset c1Catalog "slow songs please").length = 2 ∧
    ¬ ([(0 : Int), 1, -1].length ≤ (filteredSubset c1Catalog "slow songs please").length) ∧
    (-1 : Int) ∈ [(0 : Int), 1, -1] ∧ ¬ (0 : Int) ≤ (-1 : Int) := by
  refine ⟨by decide, by decide, by decide, by decide, by decide⟩

/-- C1 (amended): the retrieval stage is run with `k = candidate_pool`
uncapped; it returns exactly `candidate_pool` positions, each of which is
either a valid index into the filtered subset or the padding sentinel
`-1`; whenever `candidate_pool` does not exceed the subset size, every
returned position is a valid index into the filtered subset. -/
theorem c1_uncapped_retrieval (sim : String → String → Int) (df : List Song)
    (q : String) (pool : Nat)
    (hne : filteredSubset df q ≠ []) (hpool : 1 ≤ pool) :
    ∃ ps, retrievalPositions sim df q pool = some ps ∧
      ps.length = pool ∧
      (∀ p ∈ ps, (0 ≤ p ∧ p.toNat < (filteredSubset df q).length) ∨ p = -1) ∧
      (pool ≤ (filteredSubset df q).length →
        ∀ p ∈ ps, 0 ≤ p ∧ p.toNat < (filteredSubset df q).length) := by
  have he := earlyEmpty_eq_false_of_ne hne
  have hisE : (filteredSubset df q).isEmpty = false := by
    cases hfs : filteredSubset df q with
    | nil => exact absurd hfs hne
    | cons a l => simp
  have hk0 : ¬ pool = 0 := by omega
  refine ⟨faissSearch ((filteredSubset df q).map fun s => sim q s.search_text) pool,
    ?_, ?_, ?_, ?_⟩
  · simp only [retrievalPositions, he, Bool.false_eq_true, if_false]
    rw [retrievalFrom, hisE]
    simp only [Bool.false_eq_true, if_false, if_neg hk0]
  · rw [faissSearch_length]
  · intro p hp
    have := mem_faissSearch hp
    simpa [List.length_map] using this
  · intro hle p hp
    have := mem_faissSearch_of_le (by simpa [List.length_map] using hle) hp
    simpa [List.length_map] using this

theorem c1_witness :
    ∃ ps, retrievalPositions (fun _ _ => (0 : Int)) c1Catalog "slow songs please" 2
        = some ps ∧
      ps.length = 2 ∧
      (∀ p ∈ ps,
        (0 ≤ p ∧ p.toNat < (filteredSubset c1Catalog "slow songs please").length) ∨
        p = -1) ∧
      (2 ≤ (filteredSubset c1Catalog "slow songs please").length →
        ∀ p ∈ ps, 0 ≤ p ∧
          p.toNat < (filteredSubset c1Catalog "slow songs please").length) :=
  c1_uncapped_retrieval (fun _ _ => (0 : Int)) c1Catalog "slow songs please" 2
    (by decide) (by decide)

/-- C2: when the query carries a speed filter that matches no catalog row
(case-insensitively), `recommend` returns the empty result — no exception,
no fallback to unfiltered search. -/
theorem c2_unmatched_filter_empty (sim rr : String → String → Int)
    (df : List Song) (q f : String) (top_k pool : Nat)
    (hf : extract_speed_filter q = some f)
    (hempty : df.filter (fun s => strToLower s.speed == f) = []) :
    recommend sim rr df q top_k pool = some [] := by
  have hfs : filteredSubset df q = [] := by
    rw [filteredSubset, hf]
    exact hempty
  have he : earlyEmpty df q = true := by
    rw [earlyEmpty, hf, hfs]
    rfl
  simp [recommend, availableCandidates, he, List.insertionSort]

theorem c2_witness :
    recommend (fun _ _ => (0 : Int)) (fun _ _ => (0 : Int))
      [⟨"Celebrate", "A3", "joy", "fast", "lc", "u", "p"⟩]
      "slow worship" 20 1 = some [] :=
  c2_unmatched_filter_empty (fun _ _ => (0 : Int)) (fun _ _ => (0 : Int))
    [⟨"Celebrate", "A3", "joy", "fast", "lc", "u", "p"⟩]
    "slow worship" "slow" 20 1 (by decide) (by decide)

/-- C3: `extract_speed_filter` lowercases the query and tests the slow,
middle and fast word-boundary groups in that fixed order, returning the
label of the first group with a match — so slow > middle > fast decides
when several groups occur — and `none` exactly when no group matches. -/
theorem c3_extract_speed_precedence (q : String) :
    (occursAnyWord slowWords (strToLower q) →
      extract_speed_filter q = some "slow") ∧
    (¬ occursAnyWord slowWords (strToLower q) →
      occursAnyWord middleWords (strToLower q) →
      extract_speed_filter q = some "middle") ∧
    (¬ occursAnyWord slowWords (strToLower q) →
      ¬ occursAnyWord middleWords (strToLower q) →
      occursAnyWord fastWords (strToLower q) →
      extract_speed_filter q = some "fast") ∧
    (¬ occursAnyWord slowWords (strToLower q) →
      ¬ occursAnyWord middleWords (strToLower q) →
      ¬ occursAnyWord fastWords (strToLower q) →
      extract_speed_filter q = none) := by
  refine ⟨fun hs => ?_, fun hns hm => ?_, fun hns hnm hf => ?_, fun hns hnm hnf => ?_⟩
  · rw [extract_speed_filter]
    simp [(regexSearchAny_iff slowWords (strToLower q)).mpr hs]
  · rw [extract_speed_filter]
    simp [regexSearchAny_eq_false slowWords (strToLower q) hns,
      (regexSearchAny_iff middleWords (strToLower q)).mpr hm]
  · rw [extract_speed_filter]
    simp [regexSearchAny_eq_false slowWords (strToLower q) hns,
      regexSearchAny_eq_false middleWords (strToLower q) hnm,
      (regexSearchAny_iff fastWords (strToLower q)).mpr hf]
  · rw [extract_speed_filter]
    simp [regexSearchAny_eq_false slowWords (strToLower q) hns,
      regexSearchAny_eq_false middleWords (strToLower q) hnm,
      regexSearchAny_eq_false fastWords (strToLower q) hnf]

theorem c3_witness : extract_speed_filter "upbeat but slow" = some "slow" :=
  (c3_extract_speed_precedence "upbeat but slow").1
    ⟨"slow", by simp [slowWords],
      (searchWordStr_iff "slow" (strToLower "upbeat but slow")).mp (by decide)⟩

/-- C4: the returned sequence is sorted by score descending, ties in score
broken by title ascending (lexicographic): any earlier entry has a
greater-or-equal score, and on equal scores a lexicographically
smaller-or-equal title. -/
theorem c4_sort_score_desc_title_asc (sim rr : String → String → Int)
    (df : List Song) (q : String) (top_k pool : Nat) (out : List ScoredSong)
    (h : recommend sim rr df q top_k pool = some out) :
    out.Pairwise fun a b =>
      b.score ≤ a.score ∧ (a.score = b.score → strLe a.song.title b.song.title) := by
  rw [recommend] at h
  cases hav : availableCandidates sim df q pool with
  | none => rw [hav] at h; cases h
  | some cs =>
    rw [hav] at h
    dsimp only at h
    cases h
    have hpair : (List.insertionSort rankRel (cs.map fun s =>
        ScoredSong.mk s (rr q s.cross_input_text))).Pairwise fun a b =>
        b.score ≤ a.score ∧ (a.score = b.score → strLe a.song.title b.song.title) := by
      refine List.Pairwise.imp ?_ (List.sorted_insertionSort rankRel _)
      intro a b hab
      rcases hab with hlt | ⟨he, hle⟩
      · refine ⟨le_of_lt hlt, fun he2 => ?_⟩
        rw [he2] at hlt
        exact absurd hlt (lt_irrefl _)
      · exact ⟨le_of_eq he.symm, fun _ => hle⟩
    exact List.Pairwise.sublist (List.take_sublist _ _) hpair

theorem c4_witness :
    recommend (fun _ _ => (0 : Int)) (fun _ _ => (5 : Int))
        [⟨"Zion", "Z", "t", "fast", "lz", "u", "p"⟩,
         ⟨"Abide", "B", "t", "fast", "lb", "u", "p"⟩] "" 20 2 =
      some [⟨⟨"Abide", "B", "t", "fast", "lb", "u", "p"⟩, 5⟩,
            ⟨⟨"Zion", "Z", "t", "fast", "lz", "u", "p"⟩, 5⟩] ∧
    ([⟨⟨"Abide", "B", "t", "fast", "lb", "u", "p"⟩, 5⟩,
      ⟨⟨"Zion", "Z", "t", "fast", "lz", "u", "p"⟩, 5⟩] :
        List ScoredSong).Pairwise fun a b =>
      b.score ≤ a.score ∧ (a.score = b.score → strLe a.song.title b.song.title) :=
  ⟨by decide,
    c4_sort_score_desc_title_asc (fun _ _ => (0 : Int)) (fun _ _ => (5 : Int))
      [⟨"Zion", "Z", "t", "fast", "lz", "u", "p"⟩,
       ⟨"Abide", "B", "t", "fast", "lb", "u", "p"⟩] "" 20 2 _ (by decide)⟩

/-- C5: the output length is `min top_k` (number of candidates surviving
filtering, retrieval and deduplication); in particular it never exceeds
`top_k`, and an oversized `top_k` just returns all candidates. -/
theorem c5_topk_truncation (sim rr : String → String → Int)
    (df : List Song) (q : String) (top_k pool : Nat) (out : List ScoredSong)
    (h : recommend sim rr df q top_k pool = some out) :
    ∃ cs, availableCandidates sim df q pool = some cs ∧
      out.length = min top_k cs.length ∧ out.length ≤ top_k := by
  rw [recommend] at h
  cases hav : availableCandidates sim df q pool with
  | none => rw [hav] at h; cases h
  | some cs =>
    rw [hav] at h
    dsimp only at h
    cases h
    refine ⟨cs, rfl, ?_, ?_⟩
    · rw [List.length_take, (List.perm_insertionSort rankRel _).length_eq,
        List.length_map]
    · rw [List.length_take]
      exact Nat.min_le_left _ _

/-- C6: the output never contains two entries with the same
(title, artist) pair — duplicates in the retrieved candidates are dropped,
first occurrence kept. -/
theorem c6_dedup_title_artist (sim rr : String → String → Int)
    (df : List Song) (q : String) (top_k pool : Nat) (out : List ScoredSong)
    (h : recommend sim rr df q top_k pool = some out) :
    (out.map fun r => (r.song.title, r.song.artist)).Nodup := by
  rw [recommend] at h
  cases hav : availableCandidates sim df q pool with
  | none => rw [hav] at h; cases h
  | some cs =>
    rw [hav] at h
    dsimp only at h
    cases h
    have hcs := availableCandidates_key_nodup hav
    have hperm : ((List.insertionSort rankRel (cs.map fun s =>
          ScoredSong.mk s (rr q s.cross_input_text))).map
            fun r => (r.song.title, r.song.artist)).Perm
        ((cs.map fun s => ScoredSong.mk s (rr q s.cross_input_text)).map
          fun r => (r.song.title, r.song.artist)) :=
      (List.perm_insertionSort rankRel _).map _
    have hkeys : ((cs.map fun s => ScoredSong.mk s (rr q s.cross_input_text)).map
        fun r => (r.song.title, r.song.artist)) =
        cs.map fun s => (s.title, s.artist) := by
      rw [List.map_map]
      rfl
    have hnd : ((List.insertionSort rankRel (cs.map fun s =>
        ScoredSong.mk s (rr q s.cross_input_text))).map
          fun r => (r.song.title, r.song.artist)).Nodup := by
      rw [hperm.nodup_iff, hkeys]
      exact hcs
    rw [List.map_take]
    exact List.Nodup.sublist (List.take_sublist _ _) hnd

theorem c5_witness :
    ∃ cs, availableCandidates (fun _ _ => (0 : Int))
        [⟨"Abide", "A1", "grace", "slow", "la", "u", "p"⟩,
         ⟨"Celebrate", "A3", "joy", "fast", "lc", "u", "p"⟩] "" 2 = some cs ∧
      ([⟨⟨"Abide", "A1", "grace", "slow", "la", "u", "p"⟩, 7⟩,
        ⟨⟨"Celebrate", "A3", "joy", "fast", "lc", "u", "p"⟩, 7⟩] :
          List ScoredSong).length = min 5 cs.length ∧
      ([⟨⟨"Abide", "A1", "grace", "slow", "la", "u", "p"⟩, 7⟩,
        ⟨⟨"Celebrate", "A3", "joy", "fast", "lc", "u", "p"⟩, 7⟩] :
          List ScoredSong).length ≤ 5 :=
  c5_topk_truncation (fun _ _ => (0 : Int)) (fun _ _ => (7 : Int))
    [⟨"Abide", "A1", "grace", "slow", "la", "u", "p"⟩,
     ⟨"Celebrate", "A3", "joy", "fast", "lc", "u", "p"⟩] "" 5 2 _ (by decide)

theorem c6_witness :
    recommend (fun _ _ => (0 : Int)) (fun _ _ => (7 : Int))
        [⟨"Abide", "A1", "grace", "slow", "la", "u", "p"⟩,
         ⟨"Abide", "A1", "grace", "slow", "la", "u", "p"⟩,
         ⟨"Celebrate", "A3", "joy", "fast", "lc", "u", "p"⟩] "" 20 3 =
      some [⟨⟨"Abide", "A1", "grace", "slow", "la", "u", "p"⟩, 7⟩,
            ⟨⟨"Celebrate", "A3", "joy", "fast", "lc", "u", "p"⟩, 7⟩] ∧
    (([⟨⟨"Abide", "A1", "grace", "slow", "la", "u", "p"⟩, 7⟩,
       ⟨⟨"Celebrate", "A3", "joy", "fast", "lc", "u", "p"⟩, 7⟩] :
        List ScoredSong).map fun r => (r.song.title, r.song.artist)).Nodup :=
  ⟨by decide,
    c6_dedup_title_artist (fun _ _ => (0 : Int)) (fun _ _ => (7 : Int))
      [⟨"Abide", "A1", "grace", "slow", "la", "u", "p"⟩,
       ⟨"Abide", "A1", "grace", "slow", "la", "u", "p"⟩,
       ⟨"Celebrate", "A3", "joy", "fast", "lc", "u", "p"⟩] "" 20 3 _ (by decide)⟩

/-- C7: contrary to the claim, an empty catalog does not produce an empty
result — the code fails.  `load_resources` raises building the
`search_text` column over a zero-row frame (modelled `none`), and
`recommend` itself, reached with an empty frame and a filterless query,
raises when it takes `local_embeddings.shape[1]` on the empty embedding
array (modelled `none`). -/
theorem c7_empty_catalog_fails :
    load_resources [] = none ∧
    recommend (fun _ _ => (0 : Int)) (fun _ _ => (0 : Int)) []
      "amazing grace" 20 5 = none := by
  exact ⟨rfl, by decide⟩

/-- C8: records with missing `lyrics`/`themes` load with those fields
defaulted to the empty string — both derived texts (`search_text` and the
reranker input) use `""` in their place — and `recommend` completes
(returns a result rather than failing) on the loaded catalog. -/
theorem c8_missing_fields_defaulted (records : List RawRecord)
    (hne : records ≠ []) (sim rr : String → String → Int) (q : String)
    (top_k pool : Nat) (hpool : 1 ≤ pool) :
    load_resources records = some (records.map rawToSong) ∧
    (∀ r ∈ records, (rawToSong r).themes = r.themes.getD "" ∧
      (rawToSong r).lyrics = r.lyrics.getD "" ∧
      (rawToSong r).search_text =
        r.speed ++ " " ++ r.themes.getD "" ++ " " ++ r.title ++ " " ++ r.artist ∧
      (rawToSong r).cross_input_text =
        r.speed ++ " " ++ r.themes.getD "" ++ " " ++ r.lyrics.getD "") ∧
    (recommend sim rr (records.map rawToSong) q top_k pool).isSome := by
  have hE : records.isEmpty = false := by
    cases records with
    | nil => exact absurd rfl hne
    | cons r rs => rfl
  have hmapne : records.map rawToSong ≠ [] := by
    cases records with
    | nil => exact absurd rfl hne
    | cons r rs => simp
  refine ⟨?_, ?_, ?_⟩
  · rw [load_resources, hE]
    rfl
  · intro r _
    exact ⟨rfl, rfl, rfl, rfl⟩
  · exact recommend_isSome sim rr (records.map rawToSong) q top_k pool hmapne hpool

theorem c8_witness :
    load_resources [⟨"Tender", "Anna", "fast", "u", "p", none, none⟩] =
      some ([⟨"Tender", "Anna", "fast", "u", "p", none, none⟩].map rawToSong) ∧
    (∀ r ∈ [(⟨"Tender", "Anna", "fast", "u", "p", none, none⟩ : RawRecord)],
      (rawToSong r).themes = r.themes.getD "" ∧
      (rawToSong r).lyrics = r.lyrics.getD "" ∧
      (rawToSong r).search_text =
        r.speed ++ " " ++ r.themes.getD "" ++ " " ++ r.title ++ " " ++ r.artist ∧
      (rawToSong r).cross_input_text =
        r.speed ++ " " ++ r.themes.getD "" ++ " " ++ r.lyrics.getD "") ∧
    (recommend (fun _ _ => (0 : Int)) (fun _ _ => (0 : Int))
      ([⟨"Tender", "Anna", "fast", "u", "p", none, none⟩].map rawToSong)
      "praise" 20 1).isSome :=
  c8_missing_fields_defaulted [⟨"Tender", "Anna", "fast", "u", "p", none, none⟩]
    (by decide) (fun _ _ => (0 : Int)) (fun _ _ => (0 : Int)) "praise" 20 1
    (by decide)

/-- C9: `recommend` is deterministic — two runs over the same catalog and
query with (extensionally) identical embedder and reranker models produce
identical ordered output, scores included. -/
theorem c9_deterministic (sim1 sim2 rr1 rr2 : String → String → Int)
    (df : List Song) (q : String) (top_k pool : Nat)
    (hsim : ∀ a b, sim1 a b = sim2 a b) (hrr : ∀ a b, rr1 a b = rr2 a b) :
    recommend sim1 rr1 df q top_k pool = recommend sim2 rr2 df q top_k pool := by
  have h1 : sim1 = sim2 := funext fun a => funext fun b => hsim a b
  have h2 : rr1 = rr2 := funext fun a => funext fun b => hrr a b
  rw [h1, h2]

theorem c9_witness :
    recommend (fun _ _ => (1 : Int)) (fun _ _ => (2 : Int))
        [⟨"Abide", "A1", "grace", "slow", "la", "u", "p"⟩] "slow" 20 1 =
      recommend (fun _ _ => (0 + 1 : Int)) (fun _ _ => (1 + 1 : Int))
        [⟨"Abide", "A1", "grace", "slow", "la", "u", "p"⟩] "slow" 20 1 :=
  c9_deterministic (fun _ _ => (1 : Int)) (fun _ _ => (0 + 1 : Int))
    (fun _ _ => (2 : Int)) (fun _ _ => (1 + 1 : Int))
    [⟨"Abide", "A1", "grace", "slow", "la", "u", "p"⟩] "slow" 20 1
    (fun _ _ => rfl) (fun _ _ => rfl)

/-- C10: a query containing the hyphenated word "mid-tempo" (and no
slow-group keyword, which would take precedence) gets the filter "middle",
because `\bmid\b` matches the "mid" segment before the hyphen; the
unhyphenated word "midtempo" matches no group, so such queries get no
filter. -/
theorem c10_midtempo :
    (∀ q : String, occursAsWord "mid-tempo" (strToLower q) →
      (∀ w ∈ slowWords, ¬ occursAsWord w (strToLower q)) →
      extract_speed_filter q = some "middle") ∧
    extract_speed_filter "midtempo" = none ∧
    extract_speed_filter "some midtempo worship" = none := by
  refine ⟨?_, by decide, by decide⟩
  intro q hocc hslow
  have hdec : ("mid-tempo".data : List Char) = "mid".data ++ '-' :: "tempo".data := by
    decide
  have hmid : occursAsWord "mid" (strToLower q) := by
    rcases hocc with ⟨pre, post, hsplit, hpre, hpost⟩
    refine ⟨pre, '-' :: ("tempo".data ++ post), ?_, hpre, rfl⟩
    rw [hsplit, hdec]
    simp
  have hmidAny : occursAnyWord middleWords (strToLower q) :=
    ⟨"mid", by simp [middleWords], hmid⟩
  have hslowF : regexSearchAny slowWords (strToLower q) = false := by
    refine regexSearchAny_eq_false _ _ fun hex => ?_
    rcases hex with ⟨w, hw, ho⟩
    exact hslow w hw ho
  rw [extract_speed_filter]
  simp [hslowF, (regexSearchAny_iff middleWords (strToLower q)).mpr hmidAny]

theorem c10_witness : extract_speed_filter "a mid-tempo chorus" = some "middle" := by
  refine c10_midtempo.1 "a mid-tempo chorus"
    ((searchWordStr_iff "mid-tempo" (strToLower "a mid-tempo chorus")).mp (by decide))
    ?_
  intro w hw ho
  have hb := (searchWordStr_iff w (strToLower "a mid-tempo chorus")).mpr ho
  have hw3 : w = "slow" ∨ w = "slower" ∨ w = "slowly" := by simpa [slowWords] using hw
  rcases hw3 with rfl | rfl | rfl
  · exact absurd hb (by decide)
  · exact absurd hb (by decide)
  · exact absurd hb (by decide)
